import Mathlib

/-!
Shallow embedding of the confy configuration client (confy.go) and proofs
about its path resolution, environment override, cache-backed fetch,
field projection, default fallback, TTL clamping, watch loop and close
lifecycle. The external Vault client and the TTL cache are modelled as
abstract capabilities: the environment is a total function from variable
names to strings (the empty string meaning "unset", as os.Getenv reports),
and the cache-plus-loader pipeline is a function from document keys to a
fetch outcome.
-/

namespace Confy

/-- Raw decoded values as they arrive from the store (Go `any` after JSON
decoding): strings, booleans, numbers, nested documents, arrays. -/
inductive RawVal where
  | str : String → RawVal
  | boolean : Bool → RawVal
  | num : Int → RawVal
  | map : List (String × RawVal) → RawVal
  | arr : List RawVal → RawVal

/-- A document: the mapping from field names to raw values returned for one
store key (`map[string]any` in the source, modelled as an association list). -/
abbrev Doc := List (String × RawVal)

/-- The `value` struct: wraps one raw field value or a whole document. -/
structure value where
  val : RawVal

/-- `value.Data`: type assertion of the wrapped value to a document map
(`m, ok := v.val.(map[string]any)`); the failure result is the zero map. -/
def value.Data (v : value) : Doc × Bool :=
  match v.val with
  | .map m => (m, true)
  | _ => ([], false)

/-- `DefaultCacheTTL = 5 * time.Minute`, in nanoseconds (time.Duration is an
int64 count of nanoseconds). -/
def DefaultCacheTTL : Int := 5 * 60 * 1000000000

/-- `MinimumCacheTTL = 30 * time.Second`, in nanoseconds. -/
def MinimumCacheTTL : Int := 30 * 1000000000

/-- The package-level `replacer = strings.NewReplacer("/", "_", "#", "_")`:
both replacement patterns are single characters, so `Replace` is a
character-wise map. -/
def replacerReplace (s : String) : String :=
  String.mk (s.toList.map (fun c => if c = '/' ∨ c = '#' then '_' else c))

/-- `strings.ToUpper`, character-wise (all paths involved are ASCII). -/
def stringsToUpper (s : String) : String :=
  String.mk (s.toList.map Char.toUpper)

/-- The environment-variable key derived in `Get`:
`strings.ToUpper(replacer.Replace(path))`. -/
def envKey (path : String) : String :=
  stringsToUpper (replacerReplace path)

/-- `strings.TrimPrefix(path, "secret/")`: drop the first 7 characters when
they spell `secret/` (the prefix is ASCII, so byte positions and character
positions agree). -/
def trimPrefixSecret (s : String) : String :=
  if s.toList.take 7 = "secret/".toList then String.mk (s.toList.drop 7) else s

/-- Character-list worker for `strings.SplitN(path, "#", 2)`: the text before
the first `#`, and everything after it when one occurs. -/
def splitFieldAux : List Char → List Char × Option (List Char)
  | [] => ([], none)
  | c :: cs =>
    if c = '#' then ([], some cs)
    else
      let r := splitFieldAux cs
      (c :: r.1, r.2)

/-- The split performed in `Get` (lines 191-196): `parts :=
strings.SplitN(path, "#", 2); path = parts[0]; fieldName = parts[1]` when a
second part exists, the empty string otherwise. -/
def splitField (s : String) : String × String :=
  let r := splitFieldAux s.toList
  (String.mk r.1, match r.2 with | none => "" | some cs => String.mk cs)

/-- Outcome of `c.cache.Get(path, WithLoader(loader))` together with the
loader's error bucket: a cached/loaded document, a loader failure recorded in
the error bucket (nil item), or a nil item with no recorded error. -/
inductive FetchOutcome where
  | found : Doc → FetchOutcome
  | fetchFailed : String → FetchOutcome
  | missing : FetchOutcome

/-- Errors `Get` can return: the wrapped loader error
("could not get secret from Vault: ..."), the generic "no value found", and
the field-not-found error carrying the field name and the document key it
names in its message. -/
inductive GetError where
  | storeError : String → GetError
  | noValue : GetError
  | fieldNotFound : String → String → GetError

/-- Lookup of a field in a document map (`f, ok := v.Value()[fieldName]`). -/
def lookupDoc (field : String) : Doc → Option RawVal
  | [] => none
  | (k, v) :: rest => if k = field then some v else lookupDoc field rest

/-- The `confyImpl` struct state visible to the embedded operations: the
override flag, the effective cache TTL and the closed flag (the cache and
vault client handles are passed to the operations as capabilities). -/
structure confyImpl where
  envOverride : Bool
  ttl : Int
  closed : Bool

/-- `New`: a zero TTL becomes `DefaultCacheTTL`, then anything below
`MinimumCacheTTL` is raised to it; the client starts open. -/
def New (cacheTTL : Int) (envOverride : Bool) : confyImpl :=
  let t1 := if cacheTTL = 0 then DefaultCacheTTL else cacheTTL
  let t2 := if t1 < MinimumCacheTTL then MinimumCacheTTL else t1
  { envOverride := envOverride, ttl := t2, closed := false }

/-- The collaborator side effects `Close` can perform: `c.cache.Stop()` and
`c.client.Close()`. -/
inductive CloseEffect where
  | stopCache : CloseEffect
  | closeClient : CloseEffect

/-- `Close`: when not yet closed, stop the cache, close the client and set
the flag; otherwise do nothing. Returns the new state and the list of
collaborator calls performed. -/
def confyImpl.Close (c : confyImpl) : confyImpl × List CloseEffect :=
  if c.closed then (c, [])
  else ({ c with closed := true }, [CloseEffect.stopCache, CloseEffect.closeClient])

/-- `Get`: trim the `secret/` prefix, consult the environment override when
enabled, otherwise split off the field name, fetch the document through the
cache-with-loader and project the field (or return the whole document when
the field name is empty). `env` is the process environment, `fetch` the
cache/loader capability. -/
def confyImpl.Get (c : confyImpl) (env : String → String)
    (fetch : String → FetchOutcome) (path0 : String) : Except GetError value :=
  let path := trimPrefixSecret path0
  if c.envOverride = true ∧ ¬ env (envKey path) = "" then
    .ok ⟨RawVal.str (env (envKey path))⟩
  else
    let parts := splitField path
    match fetch parts.1 with
    | .fetchFailed msg => .error (.storeError msg)
    | .missing => .error .noValue
    | .found doc =>
      if ¬ parts.2 = "" then
        match lookupDoc parts.2 doc with
        | some f => .ok ⟨f⟩
        | none => .error (.fieldNotFound parts.2 parts.1)
      else
        .ok ⟨RawVal.map doc⟩

/-- `GetOrDefault`: wrap `Get`; on error return the fallback string as the
value with `false`, on success return the value with `true`. -/
def confyImpl.GetOrDefault (c : confyImpl) (env : String → String)
    (fetch : String → FetchOutcome) (path fallback : String) : value × Bool :=
  match c.Get env fetch path with
  | .error _ => (⟨RawVal.str fallback⟩, false)
  | .ok v => (v, true)

/-- Whether a `Get` outcome is a success (the observable error-or-not bit). -/
def isOkResult : Except GetError value → Bool
  | .ok _ => true
  | .error _ => false

/-- The initial baseline of a watch registration: the first `Get` result, or
a value wrapping the empty string when that fetch fails. -/
def watchInit (res : Except GetError value) : value :=
  match res with
  | .error _ => ⟨RawVal.str ""⟩
  | .ok v => v

/-- One cycle of the watch polling loop, given the current baseline and this
cycle's `Get` outcome: on error the cycle is skipped (the `break` leaves only
the `select`); on success the callback fires exactly when the comparator
says so, and the baseline becomes the new value either way. Returns the new
baseline and the callback invocation, if any. -/
def watchStep (comparator : value → value → Bool) (oldValue : value)
    (res : Except GetError value) : value × Option value :=
  match res with
  | .error _ => (oldValue, none)
  | .ok newValue =>
    if comparator oldValue newValue then (newValue, some newValue)
    else (newValue, none)

/-- The watch polling loop over a finite trace of per-cycle `Get` outcomes:
the final baseline and the sequence of callback invocations. -/
def watchRun (comparator : value → value → Bool) (oldValue : value) :
    List (Except GetError value) → value × List value
  | [] => (oldValue, [])
  | r :: rest =>
    let s := watchStep comparator oldValue r
    let t := watchRun comparator s.1 rest
    (t.1, (match s.2 with | none => [] | some v => [v]) ++ t.2)

/-- Splitting a hash-free character list leaves it whole with no field part. -/
theorem splitFieldAux_no_hash (l : List Char) (h : '#' ∉ l) :
    splitFieldAux l = (l, none) := by
  induction l with
  | nil => rfl
  | cons c cs ih =>
    have hc : ¬ c = '#' := by
      intro hc
      exact h (hc ▸ List.mem_cons_self c cs)
    have hcs : '#' ∉ cs := fun hm => h (List.mem_cons_of_mem c hm)
    simp [splitFieldAux, hc, ih hcs]

/-- Splitting at the first hash: a hash-free part followed by `#` and a rest
splits into exactly those two parts. -/
theorem splitFieldAux_first_hash (l1 l2 : List Char) (h : '#' ∉ l1) :
    splitFieldAux (l1 ++ '#' :: l2) = (l1, some l2) := by
  induction l1 with
  | nil => simp [splitFieldAux]
  | cons c cs ih =>
    have hc : ¬ c = '#' := by
      intro hc
      exact h (hc ▸ List.mem_cons_self c cs)
    have hcs : '#' ∉ cs := fun hm => h (List.mem_cons_of_mem c hm)
    simp [splitFieldAux, hc, ih hcs]

/-- Appending two strings concatenates their character lists. -/
theorem toList_string_append (a b : String) :
    (a ++ b).toList = a.toList ++ b.toList := by
  simp [String.toList]

/-- C3: path resolution is total and splits on the first `#` only: a path
with no `#` keeps its whole text as the document key and has an empty field
name (whole-document mode); a path `X#Y` with `X` hash-free yields document
key `X` and field name `Y`, even when `Y` contains further `#` characters. -/
theorem C3_split_first_delimiter :
    (∀ p : String, '#' ∉ p.toList → splitField p = (p, "")) ∧
    (∀ X Y : String, '#' ∉ X.toList → splitField (X ++ "#" ++ Y) = (X, Y)) := by
  constructor
  · intro p hp
    have h := splitFieldAux_no_hash p.toList hp
    simp only [splitField]
    rw [h]
    rfl
  · intro X Y hX
    have happ : (X ++ "#" ++ Y).toList = X.toList ++ '#' :: Y.toList := by
      simp [toList_string_append]
    have h := splitFieldAux_first_hash X.toList Y.toList hX
    simp only [splitField]
    rw [happ, h]
    rfl

/-- Witness for C3 at concrete paths: `a/b#c#d` splits at the first `#`
only, and `a/b` is whole-document. -/
theorem C3_split_first_delimiter_witness :
    splitField ("a/b" ++ "#" ++ "c#d") = ("a/b", "c#d") ∧
    splitField "a/b" = ("a/b", "") :=
  ⟨C3_split_first_delimiter.2 "a/b" "c#d" (by decide),
   C3_split_first_delimiter.1 "a/b" (by decide)⟩

/-- C1: with the override enabled, whenever the environment variable derived
from the (prefix-trimmed) path holds a non-empty string `s`, `Get` returns a
value wrapping exactly `s` with no error, for every fetch capability — the
cache/loader is never consulted, so even a failing fetch cannot change the
result. -/
theorem C1_env_override_wins (c : confyImpl) (env : String → String) (p s : String)
    (hov : c.envOverride = true)
    (hs : env (envKey (trimPrefixSecret p)) = s) (hne : ¬ s = "") :
    ∀ fetch : String → FetchOutcome,
      c.Get env fetch p = .ok ⟨RawVal.str s⟩ := by
  intro fetch
  simp [confyImpl.Get, hov, hs, hne]

/-- Witness for C1: with `TEST_APP_USER=other-value` in the environment and
a fetch capability that never finds anything, `Get` on `test/app#user`
returns `other-value`. -/
theorem C1_env_override_wins_witness :
    confyImpl.Get { envOverride := true, ttl := DefaultCacheTTL, closed := false }
      (fun k => if k = "TEST_APP_USER" then "other-value" else "")
      (fun _ => FetchOutcome.missing) "test/app#user"
      = .ok ⟨RawVal.str "other-value"⟩ :=
  C1_env_override_wins _ _ "test/app#user" "other-value" rfl (by decide) (by decide) _

/-- C2 counterexample: `Data()` is a type assertion on the wrapped value, so
a `Get` with a field name, hitting a field whose value is itself a map,
returns a single-field Value on which `Data()` nevertheless succeeds —
refuting the claim that for a single field of any underlying type `Data()`
returns `ok = false`. -/
theorem C2_data_single_field_counterexample :
    confyImpl.Get { envOverride := false, ttl := DefaultCacheTTL, closed := false }
      (fun _ => "")
      (fun k => if k = "d" then FetchOutcome.found
          [("f", RawVal.map [("x", RawVal.str "y")])] else FetchOutcome.missing)
      "d#f" = .ok ⟨RawVal.map [("x", RawVal.str "y")]⟩ ∧
    (value.Data ⟨RawVal.map [("x", RawVal.str "y")]⟩).2 = true :=
  ⟨rfl, rfl⟩

/-- C2 amended: `Data()` succeeds exactly when the underlying raw value is a
document map. Every whole-document Value wraps a map, so `Data()` succeeds on
it, but a single-field Value whose field value is itself a map also succeeds;
for any non-map underlying value `Data()` returns the empty map and
`ok = false`. -/
theorem C2_data_iff_underlying_map :
    (∀ v : value, (value.Data v).2 = true ↔ ∃ m, v.val = RawVal.map m) ∧
    (∀ m : Doc, value.Data ⟨RawVal.map m⟩ = (m, true)) := by
  constructor
  · intro v
    obtain ⟨val⟩ := v
    cases val <;> simp [value.Data]
  · intro m
    rfl

/-- C4: `GetOrDefault` never propagates an error: when `Get` fails it
returns a value wrapping the literal fallback string with `false`, and when
`Get` succeeds it returns that value unchanged with `true`. -/
theorem C4_getOrDefault_absorbs_errors (c : confyImpl) (env : String → String)
    (fetch : String → FetchOutcome) (p fb : String) :
    (∀ e, c.Get env fetch p = .error e →
      c.GetOrDefault env fetch p fb = (⟨RawVal.str fb⟩, false)) ∧
    (∀ v, c.Get env fetch p = .ok v →
      c.GetOrDefault env fetch p fb = (v, true)) := by
  constructor
  · intro e h
    simp [confyImpl.GetOrDefault, h]
  · intro v h
    simp [confyImpl.GetOrDefault, h]

/-- Witness for C4: on the guaranteed-absent path `not/here#never` with
fallback `foo`, `GetOrDefault` returns the value wrapping `foo` and
`false`. -/
theorem C4_getOrDefault_absorbs_errors_witness :
    confyImpl.GetOrDefault { envOverride := false, ttl := DefaultCacheTTL, closed := false }
      (fun _ => "") (fun _ => FetchOutcome.missing) "not/here#never" "foo"
      = (⟨RawVal.str "foo"⟩, false) :=
  (C4_getOrDefault_absorbs_errors _ _ _ _ _).1 GetError.noValue rfl

/-- C5 counterexample: at the negative requested TTL `-1` the claim's
residual case ("otherwise the effective TTL equals d") fails: `-1` is
neither zero nor strictly between zero and the floor, yet `New` clamps it up
to `MinimumCacheTTL` instead of keeping `-1`. -/
theorem C5_negative_ttl_counterexample :
    (New (-1) false).ttl = MinimumCacheTTL ∧
    decide ((-1 : Int) = 0) = false ∧
    decide (0 < (-1 : Int)) = false ∧
    decide ((New (-1) false).ttl = -1) = false := by
  refine ⟨?_, rfl, rfl, ?_⟩ <;> decide

/-- C5 amended: a requested TTL of zero becomes `DefaultCacheTTL`; any
non-zero TTL below the floor — negative values included — is clamped up to
exactly `MinimumCacheTTL`; any TTL at or above the floor is kept as is. -/
theorem C5_ttl_clamping (d : Int) (eo : Bool) :
    (d = 0 → (New d eo).ttl = DefaultCacheTTL) ∧
    (¬ d = 0 → d < MinimumCacheTTL → (New d eo).ttl = MinimumCacheTTL) ∧
    (MinimumCacheTTL ≤ d → (New d eo).ttl = d) := by
  refine ⟨fun h0 => ?_, fun h0 hlt => ?_, fun hge => ?_⟩ <;>
    simp only [New, DefaultCacheTTL, MinimumCacheTTL] at * <;>
    split_ifs <;> omega

/-- Witness for C5: a zero TTL yields the default, a 1-nanosecond TTL is
clamped to the floor, and a 2-minute TTL is kept. -/
theorem C5_ttl_clamping_witness :
    (New 0 false).ttl = DefaultCacheTTL ∧
    (New 1 false).ttl = MinimumCacheTTL ∧
    (New 120000000000 false).ttl = 120000000000 :=
  ⟨(C5_ttl_clamping 0 false).1 rfl,
   (C5_ttl_clamping 1 false).2.1 (by decide) (by decide),
   (C5_ttl_clamping 120000000000 false).2.2 (by decide)⟩

/-- C6: in each watch polling cycle, a failed re-fetch skips the cycle —
baseline unchanged, no callback, and the loop goes on to process the rest of
the trace; a successful re-fetch invokes the callback with the new value
exactly when the comparator approves, and the baseline becomes the new value
regardless of the comparator result. -/
theorem C6_watch_cycle (comparator : value → value → Bool) (oldValue : value) :
    (∀ e, watchStep comparator oldValue (.error e) = (oldValue, none)) ∧
    (∀ nv, watchStep comparator oldValue (.ok nv)
      = (nv, if comparator oldValue nv then some nv else none)) ∧
    (∀ e rest, watchRun comparator oldValue (.error e :: rest)
      = watchRun comparator oldValue rest) := by
  refine ⟨fun e => rfl, fun nv => ?_, fun e rest => ?_⟩
  · by_cases h : comparator oldValue nv <;> simp [watchStep, h]
  · simp [watchRun, watchStep]

/-- C7: for a path with a non-empty field name whose document loads
successfully, a missing field makes `Get` fail with the field-not-found
error naming both the field and the document key, and a present field makes
`Get` return a value wrapping exactly that field's raw value. -/
theorem C7_field_projection (c : confyImpl) (env : String → String)
    (fetch : String → FetchOutcome) (p docKey fieldName : String) (doc : Doc)
    (hsplit : splitField (trimPrefixSecret p) = (docKey, fieldName))
    (hfield : ¬ fieldName = "")
    (hfetch : fetch docKey = FetchOutcome.found doc)
    (hnoov : c.envOverride = false ∨ env (envKey (trimPrefixSecret p)) = "") :
    (lookupDoc fieldName doc = none →
      c.Get env fetch p = .error (GetError.fieldNotFound fieldName docKey)) ∧
    (∀ f, lookupDoc fieldName doc = some f →
      c.Get env fetch p = .ok ⟨f⟩) := by
  have hcond : ¬ (c.envOverride = true ∧ ¬ env (envKey (trimPrefixSecret p)) = "") := by
    rcases hnoov with h | h
    · rintro ⟨h1, -⟩
      rw [h] at h1
      cases h1
    · rintro ⟨-, h2⟩
      exact h2 h
  constructor
  · intro hl
    simp [confyImpl.Get, hcond, hsplit, hfetch, hfield, hl]
  · intro f hl
    simp [confyImpl.Get, hcond, hsplit, hfetch, hfield, hl]

/-- Witness for C7 at a concrete client: on document `d` holding only field
`u`, `Get` on `d#w` fails with the field-not-found error for `w` on `d`,
and `Get` on `d#u` returns the stored value. -/
theorem C7_field_projection_witness :
    confyImpl.Get { envOverride := false, ttl := DefaultCacheTTL, closed := false }
      (fun _ => "")
      (fun k => if k = "d" then FetchOutcome.found [("u", RawVal.str "v")]
        else FetchOutcome.missing)
      "d#w" = .error (GetError.fieldNotFound "w" "d") ∧
    confyImpl.Get { envOverride := false, ttl := DefaultCacheTTL, closed := false }
      (fun _ => "")
      (fun k => if k = "d" then FetchOutcome.found [("u", RawVal.str "v")]
        else FetchOutcome.missing)
      "d#u" = .ok ⟨RawVal.str "v"⟩ :=
  ⟨(C7_field_projection _ _ _ "d#w" "d" "w" [("u", RawVal.str "v")]
      rfl (by decide) rfl (Or.inl rfl)).1 rfl,
   (C7_field_projection _ _ _ "d#u" "d" "u" [("u", RawVal.str "v")]
      rfl (by decide) rfl (Or.inl rfl)).2 (RawVal.str "v") rfl⟩

/-- C8: `Close` is idempotent: a second `Close` leaves the state unchanged
and performs no collaborator call, and starting from an open client the two
calls together stop the cache and release the client exactly once, with the
closed flag set by the first call. -/
theorem C8_close_idempotent (c : confyImpl) :
    ((c.Close).1.Close).1 = (c.Close).1 ∧
    ((c.Close).1.Close).2 = [] ∧
    (c.closed = false →
      (c.Close).1.closed = true ∧
      (c.Close).2 ++ ((c.Close).1.Close).2
        = [CloseEffect.stopCache, CloseEffect.closeClient]) := by
  by_cases h : c.closed <;> simp [confyImpl.Close, h]

/-- Witness for C8 at a concrete open client: both collaborator resources
are released exactly once across two `Close` calls, and the flag is set. -/
theorem C8_close_idempotent_witness :
    (({ envOverride := false, ttl := DefaultCacheTTL, closed := false } : confyImpl).Close).1.closed
      = true ∧
    (({ envOverride := false, ttl := DefaultCacheTTL, closed := false } : confyImpl).Close).2 ++
      ((({ envOverride := false, ttl := DefaultCacheTTL, closed := false } : confyImpl).Close).1.Close).2
      = [CloseEffect.stopCache, CloseEffect.closeClient] :=
  (C8_close_idempotent _).2.2 rfl

/-- C9 counterexample: `strings.TrimPrefix` strips `secret/` only once, so
for `p = "secret/a"` the two calls address different documents: with a store
holding document `a` but not `secret/a`, `Get` on `secret/` ++ p fails while
`Get` on `p` succeeds — refuting the claimed equivalence for every path. -/
theorem C9_double_prefix_counterexample :
    confyImpl.Get { envOverride := false, ttl := DefaultCacheTTL, closed := false }
      (fun _ => "")
      (fun k => if k = "a" then FetchOutcome.found [("u", RawVal.str "v")]
        else FetchOutcome.missing)
      ("secret/" ++ "secret/a") = .error GetError.noValue ∧
    confyImpl.Get { envOverride := false, ttl := DefaultCacheTTL, closed := false }
      (fun _ => "")
      (fun k => if k = "a" then FetchOutcome.found [("u", RawVal.str "v")]
        else FetchOutcome.missing)
      "secret/a" = .ok ⟨RawVal.map [("u", RawVal.str "v")]⟩ ∧
    isOkResult (confyImpl.Get { envOverride := false, ttl := DefaultCacheTTL, closed := false }
      (fun _ => "")
      (fun k => if k = "a" then FetchOutcome.found [("u", RawVal.str "v")]
        else FetchOutcome.missing)
      ("secret/" ++ "secret/a")) = false ∧
    isOkResult (confyImpl.Get { envOverride := false, ttl := DefaultCacheTTL, closed := false }
      (fun _ => "")
      (fun k => if k = "a" then FetchOutcome.found [("u", RawVal.str "v")]
        else FetchOutcome.missing)
      "secret/a") = true :=
  ⟨rfl, rfl, rfl, rfl⟩

/-- C9 amended: for every path `p` that does not itself begin with the
`secret/` prefix, `Get` on `secret/` ++ p is observably identical to `Get`
on `p` — the prefix is stripped before the environment-override key is
derived and before the document key is resolved. -/
theorem C9_prefix_stripped (c : confyImpl) (env : String → String)
    (fetch : String → FetchOutcome) (p : String)
    (hp : ¬ p.toList.take 7 = "secret/".toList) :
    c.Get env fetch ("secret/" ++ p) = c.Get env fetch p := by
  have happ : ("secret/" ++ p).toList = "secret/".toList ++ p.toList :=
    toList_string_append "secret/" p
  have hlen : ("secret/".toList).length = 7 := rfl
  have htake : ("secret/" ++ p).toList.take 7 = "secret/".toList := by
    rw [happ, ← hlen, List.take_left]
  have hdrop : ("secret/" ++ p).toList.drop 7 = p.toList := by
    rw [happ, ← hlen, List.drop_left]
  have h1 : trimPrefixSecret ("secret/" ++ p) = p := by
    rw [trimPrefixSecret, if_pos htake, hdrop]
    rfl
  have h2 : trimPrefixSecret p = p := by
    rw [trimPrefixSecret, if_neg hp]
  rw [confyImpl.Get, confyImpl.Get, h1, h2]

/-- Witness for C9 at a concrete path: `Get` on `secret/a` equals `Get` on
`a` for a concrete client, environment and store. -/
theorem C9_prefix_stripped_witness :
    confyImpl.Get { envOverride := true, ttl := DefaultCacheTTL, closed := false }
      (fun _ => "")
      (fun k => if k = "a" then FetchOutcome.found [("u", RawVal.str "v")]
        else FetchOutcome.missing)
      ("secret/" ++ "a")
    = confyImpl.Get { envOverride := true, ttl := DefaultCacheTTL, closed := false }
      (fun _ => "")
      (fun k => if k = "a" then FetchOutcome.found [("u", RawVal.str "v")]
        else FetchOutcome.missing)
      "a" :=
  C9_prefix_stripped _ _ _ "a" (by decide)

/-- Appending a trailing `#` never changes whether a character list starts
with the seven characters `secret/`. -/
theorem take7_append_hash (l : List Char) :
    ((l ++ ['#']).take 7 = "secret/".toList) ↔ (l.take 7 = "secret/".toList) := by
  have hlen7 : ("secret/".toList).length = 7 := rfl
  by_cases h : 7 ≤ l.length
  · rw [List.take_append_of_le_length h]
  · have hlt : l.length < 7 := Nat.lt_of_not_le h
    constructor
    · intro he
      exfalso
      have h2 : (l ++ ['#']).length ≤ 7 := by
        rw [List.length_append]
        simp
        omega
      have h3 : (l ++ ['#']).take 7 = l ++ ['#'] := List.take_of_length_le h2
      rw [h3] at he
      have h5 : "secret/".toList = "secret".toList ++ ['/'] := rfl
      rw [h5] at he
      have h6 := List.append_inj' he rfl
      exact absurd h6.2 (by decide)
    · intro he
      exfalso
      have h1 : l.take 7 = l := List.take_of_length_le (Nat.le_of_lt hlt)
      rw [h1] at he
      have h2 := congrArg List.length he
      rw [hlen7] at h2
      omega

/-- `strings.TrimPrefix(path, "secret/")` commutes with appending a trailing
`#`. -/
theorem trim_append_hash (X : String) :
    trimPrefixSecret (X ++ "#") = trimPrefixSecret X ++ "#" := by
  have hlen7 : ("secret/".toList).length = 7 := rfl
  have happ : (X ++ "#").toList = X.toList ++ ['#'] := toList_string_append X "#"
  by_cases h : X.toList.take 7 = "secret/".toList
  · have h7 : 7 ≤ X.toList.length := by
      have h' := congrArg List.length h
      rw [List.length_take, hlen7] at h'
      omega
    have htake : (X ++ "#").toList.take 7 = "secret/".toList := by
      rw [happ, List.take_append_of_le_length h7, h]
    have hdrop : (X ++ "#").toList.drop 7 = X.toList.drop 7 ++ ['#'] := by
      rw [happ, List.drop_append_of_le_length h7]
    rw [trimPrefixSecret, if_pos htake, hdrop, trimPrefixSecret, if_pos h]
    rfl
  · have htake : ¬ (X ++ "#").toList.take 7 = "secret/".toList := by
      rw [happ]
      exact fun hc => h ((take7_append_hash X.toList).1 hc)
    rw [trimPrefixSecret, if_neg htake, trimPrefixSecret, if_neg h]

/-- C10 counterexample: with the override enabled, `x#` and `x` derive
different environment keys (`X_` versus `X`), so with `X_` set in the
environment and an empty store, `Get` on `x#` returns the override value
while `Get` on `x` fails — refuting the claimed equivalence for every
client. -/
theorem C10_trailing_delimiter_counterexample :
    confyImpl.Get { envOverride := true, ttl := DefaultCacheTTL, closed := false }
      (fun k => if k = "X_" then "v" else "") (fun _ => FetchOutcome.missing)
      ("x" ++ "#") = .ok ⟨RawVal.str "v"⟩ ∧
    confyImpl.Get { envOverride := true, ttl := DefaultCacheTTL, closed := false }
      (fun k => if k = "X_" then "v" else "") (fun _ => FetchOutcome.missing)
      "x" = .error GetError.noValue ∧
    isOkResult (confyImpl.Get { envOverride := true, ttl := DefaultCacheTTL, closed := false }
      (fun k => if k = "X_" then "v" else "") (fun _ => FetchOutcome.missing)
      ("x" ++ "#")) = true ∧
    isOkResult (confyImpl.Get { envOverride := true, ttl := DefaultCacheTTL, closed := false }
      (fun k => if k = "X_" then "v" else "") (fun _ => FetchOutcome.missing)
      "x") = false :=
  ⟨rfl, rfl, rfl, rfl⟩

/-- C10 amended: for a `#`-free document key `X`, `Get` on `X#` behaves
identically to `Get` on `X` whenever the environment override cannot tell
them apart — override disabled, or the environment agreeing on the two
derived keys; the post-split field name of `X#` is empty, so the whole
document map is returned rather than a field-not-found error. -/
theorem C10_trailing_delimiter (c : confyImpl) (env : String → String)
    (fetch : String → FetchOutcome) (X : String)
    (hX : '#' ∉ X.toList)
    (henv : c.envOverride = false ∨
      env (envKey (trimPrefixSecret X ++ "#")) = env (envKey (trimPrefixSecret X))) :
    c.Get env fetch (X ++ "#") = c.Get env fetch X := by
  have htrim := trim_append_hash X
  have hXt : '#' ∉ (trimPrefixSecret X).toList := by
    rw [trimPrefixSecret]
    split_ifs with h
    · intro hm
      exact hX (List.mem_of_mem_drop hm)
    · exact hX
  have happ1 : (trimPrefixSecret X ++ "#").toList
      = (trimPrefixSecret X).toList ++ '#' :: [] :=
    toList_string_append (trimPrefixSecret X) "#"
  have hsplit1 : splitField (trimPrefixSecret X ++ "#") = (trimPrefixSecret X, "") := by
    have h := splitFieldAux_first_hash (trimPrefixSecret X).toList [] hXt
    simp only [splitField]
    rw [happ1, h]
    rfl
  have hsplit2 : splitField (trimPrefixSecret X) = (trimPrefixSecret X, "") := by
    have h := splitFieldAux_no_hash (trimPrefixSecret X).toList hXt
    simp only [splitField]
    rw [h]
    rfl
  rcases henv with h | h
  · simp only [confyImpl.Get, htrim, hsplit1, hsplit2, h]
    simp
  · simp only [confyImpl.Get, htrim, hsplit1, hsplit2, h]

/-- Witness for C10 at a concrete client with the override disabled: `Get`
on `d#` equals `Get` on `d`. -/
theorem C10_trailing_delimiter_witness :
    confyImpl.Get { envOverride := false, ttl := DefaultCacheTTL, closed := false }
      (fun _ => "")
      (fun k => if k = "d" then FetchOutcome.found [("u", RawVal.str "v")]
        else FetchOutcome.missing)
      ("d" ++ "#")
    = confyImpl.Get { envOverride := false, ttl := DefaultCacheTTL, closed := false }
      (fun _ => "")
      (fun k => if k = "d" then FetchOutcome.found [("u", RawVal.str "v")]
        else FetchOutcome.missing)
      "d" :=
  C10_trailing_delimiter _ _ _ "d" (by decide) (Or.inl rfl)

end Confy
